import Mathlib

/-!
Verification development for the `distributions.py` module of the
`online_hmm` repository: parametric distribution models (full-covariance
Gaussian, isotropic `SquareDistance`, categorical `KL`) and the online
sufficient-statistics accumulator `KLSufficientStatistics`.

Modelling conventions (shallow embedding of the Python/numpy source):

* A numpy float64 scalar is modelled by `NpF := Option ℚ`: `some q` is an
  exact finite value, `none` stands for a non-finite float (NaN or ±Inf).
  Finite-precision rounding and overflow of finite intermediate results are
  abstracted away (finite op finite = finite); the distinction that matters
  to the claims — finite value versus NaN/Inf produced by a division by
  zero — is modelled exactly: numpy float division by zero emits a runtime
  warning and produces NaN (0/0) or ±Inf (x/0), it does NOT raise an
  exception, so `ndiv` returns `none` rather than an error.
* Transcendental operations (`log`, `exp`, `sqrt`, the constant π) have no
  exact rational semantics; they are abstracted by a `NumKernel` structure
  (the spec's external `LinearAlgebraKernel` collaborator provides them).
  Theorems about error behaviour and about the `normalized` flag hold for
  every kernel.
* A Python method that can raise (an `assert` in the source) is embedded
  with result type `Except String _`; a method whose body contains no
  `raise`/`assert` always returns `.ok`.
* In-place mutation of `self` becomes a function returning the new state.
-/

namespace OnlineHMM

/-- Model of a numpy float64 scalar: `some q` is an exact finite value,
`none` is a non-finite float (NaN or ±Inf). -/
abbrev NpF := Option ℚ

/-- Addition of numpy scalars; any non-finite operand contaminates the
result (NaN propagates; Inf + (-Inf) = NaN; Inf + x = Inf — all `none`). -/
def nadd (a b : NpF) : NpF := Option.map₂ (· + ·) a b

/-- Subtraction of numpy scalars, non-finite operands contaminate. -/
def nsub (a b : NpF) : NpF := Option.map₂ (· - ·) a b

/-- Multiplication of numpy scalars, non-finite operands contaminate
(NaN·x = NaN, Inf·0 = NaN, Inf·x = ±Inf — all `none`). -/
def nmul (a b : NpF) : NpF := Option.map₂ (· * ·) a b

/-- Negation of a numpy scalar. -/
def nneg (a : NpF) : NpF := Option.map (fun x => -x) a

/-- Natural-number power of a numpy scalar. -/
def npow (a : NpF) (n : ℕ) : NpF := Option.map (fun x => x ^ n) a

/-- Division of numpy scalars: division by zero yields a non-finite result
(NaN for 0/0, ±Inf otherwise), never an exception. -/
def ndiv (a b : NpF) : NpF :=
  match a, b with
  | some x, some y => if y = 0 then none else some (x / y)
  | _, _ => none

/-- Sum of numpy scalars: finite iff every summand is finite (a NaN summand
gives NaN; an Inf summand gives Inf or NaN — all `none`). -/
def nsum {n : ℕ} (f : Fin n → NpF) : NpF :=
  if h : ∀ i, (f i).isSome then some (∑ i, (f i).get (h i)) else none

theorem nsum_eq_some {n : ℕ} {f : Fin n → NpF} {g : Fin n → ℚ}
    (hf : ∀ i, f i = some (g i)) : nsum f = some (∑ i, g i) := by
  have h : ∀ i, (f i).isSome := fun i => by rw [hf i]; rfl
  rw [nsum, dif_pos h]
  congr 1
  refine Finset.sum_congr rfl fun i _ => ?_
  have := hf i
  simp [this]

theorem nsum_eq_none {n : ℕ} {f : Fin n → NpF} (i : Fin n) (h : f i = none) :
    nsum f = none := by
  rw [nsum, dif_neg]
  intro hall
  have hi := hall i
  rw [h] at hi
  exact absurd hi (by simp)

theorem nadd_some (a b : ℚ) : nadd (some a) (some b) = some (a + b) := rfl

theorem nsub_some (a b : ℚ) : nsub (some a) (some b) = some (a - b) := rfl

theorem nmul_some (a b : ℚ) : nmul (some a) (some b) = some (a * b) := rfl

theorem ndiv_some {a b : ℚ} (hb : b ≠ 0) :
    ndiv (some a) (some b) = some (a / b) := by
  simp [ndiv, hb]

theorem ndiv_zero_right (a : NpF) : ndiv a (some 0) = none := by
  cases a <;> simp [ndiv]

/-- Abstract numeric kernel supplying the transcendental operations used by
the density formulas (the spec's external `LinearAlgebraKernel`
collaborator). `log`, `exp`, `sqrt` map numpy scalars to numpy scalars
(e.g. `log 0 = -Inf`, `log` of a negative is NaN, `exp` may overflow to
Inf); `pi` is the finite float closest to π. -/
structure NumKernel where
  log : NpF → NpF
  exp : NpF → NpF
  sqrt : NpF → NpF
  pi : ℚ

/-- A trivial kernel instance, used only to instantiate kernel-generic
theorems at a concrete input. -/
def dummyKernel : NumKernel :=
  { log := id, exp := id, sqrt := id, pi := 3 }

/-- A length-`N` weight argument: numpy runtime-dispatches on
`weights.dtype == np.bool`, so the argument is either a boolean selection
mask or a float weight vector (floats are finite inputs supplied by the
driver). -/
inductive Weights (N : ℕ) where
  | bool (mask : Fin N → Bool)
  | float (w : Fin N → ℚ)

/-- The numeric view of a weight argument, as numpy coerces it in
`dists.dot(weights)` and `np.sum(weights)`: `True` counts as 1. -/
def Weights.toQ {N : ℕ} : Weights N → (Fin N → ℚ)
  | .bool mask => fun i => if mask i then 1 else 0
  | .float w => fun i => w i

/-- State of `Gaussian`: `mean` is a length-`D` vector, `cov` a `D×D`
matrix (source: `__init__` stores both). -/
structure Gaussian (D : ℕ) where
  mean : Fin D → NpF
  cov : Fin D → Fin D → NpF

/-- Source `Gaussian.max_likelihood(X, weights)` (distributions.py:32-35):
`self.mean = np.sum(weights[:,nax] * X, axis=0) / np.sum(weights)`;
`diff = X - self.mean`;
`self.cov = diff.T.dot(weights[:,nax] * diff) / np.sum(weights)`.
`X` is an `N×D` array of finite floats supplied by the driver; the body
contains no `assert`/`raise` (a zero weight sum gives a numpy warning and
NaN entries, not an exception), so the result is always `.ok`. -/
def Gaussian.max_likelihood {N D : ℕ} (X : Fin N → Fin D → ℚ)
    (weights : Fin N → ℚ) : Except String (Gaussian D) :=
  let mean : Fin D → NpF :=
    fun j => ndiv (some (∑ i, weights i * X i j)) (some (∑ i, weights i))
  let diff : Fin N → Fin D → NpF := fun i j => nsub (some (X i j)) (mean j)
  let cov : Fin D → Fin D → NpF :=
    fun j k =>
      ndiv (nsum fun i => nmul (diff i j) (nmul (some (weights i)) (diff i k)))
        (some (∑ i, weights i))
  .ok { mean := mean, cov := cov }

/-- State of `SquareDistance`: `mean` is a length-`D` vector, `sigma2` an
optional scalar (`none` is Python's `None`; `some v` a stored float). -/
structure SquareDistance (D : ℕ) where
  mean : Fin D → NpF
  sigma2 : Option NpF

/-- Source `SquareDistance.cov` property (distributions.py:62-64):
`return self.sigma2 * np.eye(2)` — note the hard-coded `np.eye(2)`: the
result is a 2×2 matrix whatever the dimension `D` of `mean`. When
`sigma2` is `None`, Python raises a `TypeError` on `None * array`. -/
def SquareDistance.cov {D : ℕ} (s : SquareDistance D) :
    Except String (Fin 2 → Fin 2 → NpF) :=
  match s.sigma2 with
  | none => .error "TypeError: unsupported operand type for NoneType"
  | some v => .ok fun i j => nmul v (some (if i = j then 1 else 0))

/-- Source `SquareDistance.distances(X)` (distributions.py:70-72):
`diff = X - self.mean; return np.sum(diff * diff, axis=1)`. -/
def SquareDistance.distances {N D : ℕ} (s : SquareDistance D)
    (X : Fin N → Fin D → ℚ) : Fin N → NpF :=
  fun i => nsum fun j =>
    nmul (nsub (some (X i j)) (s.mean j)) (nsub (some (X i j)) (s.mean j))

/-- Source `SquareDistance.max_likelihood(X, weights)`
(distributions.py:74-83): if `weights.dtype == np.bool` the mean is
`X[weights,:].mean(axis=0)` (average of the selected rows), otherwise the
weighted average; then, when `sigma2 is not None`,
`self.sigma2 = 0.5 * dists.dot(weights) / np.sum(weights)` where `dists`
are squared Euclidean distances to the new mean. No `assert`/`raise` in
the body, so the result is always `.ok`. -/
def SquareDistance.max_likelihood {N D : ℕ} (s : SquareDistance D)
    (X : Fin N → Fin D → ℚ) (weights : Weights N) :
    Except String (SquareDistance D) :=
  let mean : Fin D → NpF :=
    match weights with
    | .bool mask =>
        fun j => ndiv (some (∑ i, if mask i then X i j else 0))
          (some (∑ i, if mask i then (1 : ℚ) else 0))
    | .float w =>
        fun j => ndiv (some (∑ i, w i * X i j)) (some (∑ i, w i))
  let sigma2 : Option NpF :=
    match s.sigma2 with
    | none => none
    | some _ =>
        let diff : Fin N → Fin D → NpF :=
          fun i j => nsub (some (X i j)) (mean j)
        let dists : Fin N → NpF :=
          fun i => nsum fun j => nmul (diff i j) (diff i j)
        some (ndiv
          (nmul (some (1/2 : ℚ))
            (nsum fun i => nmul (dists i) (some (weights.toQ i))))
          (some (∑ i, weights.toQ i)))
  .ok { mean := mean, sigma2 := sigma2 }

/-- Source `SquareDistance.log_pdf(X)` (distributions.py:85-91): first
`assert self.sigma2 is not None, 'only for isotropic Gaussian'` (an
`AssertionError` surfaced to the caller), then
`-0.5*d*log(2π) - 0.5*d*log(sigma2) - 0.5*dists/sigma2` per row. -/
def SquareDistance.log_pdf {N D : ℕ} (κ : NumKernel) (s : SquareDistance D)
    (X : Fin N → Fin D → ℚ) : Except String (Fin N → NpF) :=
  match s.sigma2 with
  | none => .error "only for isotropic Gaussian"
  | some σ =>
      let d : ℚ := (D : ℚ)
      let diff : Fin N → Fin D → NpF :=
        fun i j => nsub (some (X i j)) (s.mean j)
      let dists : Fin N → NpF :=
        fun i => nsum fun j => nmul (diff i j) (diff i j)
      .ok fun i =>
        nsub
          (nsub (nmul (some (-(1/2) * d)) (κ.log (some (2 * κ.pi))))
            (nmul (some ((1/2) * d)) (κ.log σ)))
          (ndiv (nmul (some (1/2 : ℚ)) (dists i)) σ)

/-- Source `SquareDistance.pdf(X, normalized)` (distributions.py:93-103):
same `assert self.sigma2 is not None` guard, then
`1/sqrt((2π·sigma2)^d) * exp(-0.5*dists/sigma2)` when `normalized`, else
`exp(-0.5*dists/sigma2)`. -/
def SquareDistance.pdf {N D : ℕ} (κ : NumKernel) (s : SquareDistance D)
    (X : Fin N → Fin D → ℚ) (normalized : Bool) :
    Except String (Fin N → NpF) :=
  match s.sigma2 with
  | none => .error "only for isotropic Gaussian"
  | some σ =>
      let diff : Fin N → Fin D → NpF :=
        fun i j => nsub (some (X i j)) (s.mean j)
      let dists : Fin N → NpF :=
        fun i => nsum fun j => nmul (diff i j) (diff i j)
      if normalized then
        .ok fun i =>
          nmul (ndiv (some 1) (κ.sqrt (npow (nmul (some (2 * κ.pi)) σ) D)))
            (κ.exp (ndiv (nmul (some (-(1/2) : ℚ)) (dists i)) σ))
      else
        .ok fun i => κ.exp (ndiv (nmul (some (-(1/2) : ℚ)) (dists i)) σ)

/-- State of `KL` ("basically a multinomial"): `mean` is a length-`D`
vector (a probability vector when the caller maintains the invariant). -/
structure KL (D : ℕ) where
  mean : Fin D → NpF

/-- Source `KL.distances(X)` (distributions.py:114-115):
`return - X.dot(np.log(self.mean))`. -/
def KL.distances {N D : ℕ} (κ : NumKernel) (kl : KL D)
    (X : Fin N → Fin D → ℚ) : Fin N → NpF :=
  fun i => nneg (nsum fun j => nmul (some (X i j)) (κ.log (kl.mean j)))

/-- Source `KL.log_pdf(X)` (distributions.py:126-128):
`return X.dot(np.log(self.mean))`. -/
def KL.log_pdf {N D : ℕ} (κ : NumKernel) (kl : KL D)
    (X : Fin N → Fin D → ℚ) : Fin N → NpF :=
  fun i => nsum fun j => nmul (some (X i j)) (κ.log (kl.mean j))

/-- Source `KL.pdf(X, normalized=True)` (distributions.py:130-131):
`return np.exp(X.dot(np.log(self.mean)))` — the body never reads
`normalized`. -/
def KL.pdf {N D : ℕ} (κ : NumKernel) (kl : KL D)
    (X : Fin N → Fin D → ℚ) (normalized : Bool) : Fin N → NpF :=
  fun i => κ.exp (nsum fun j => nmul (some (X i j)) (κ.log (kl.mean j)))

/-- State of `KLSufficientStatistics` for `K` clusters over observation
vectors of length `size`: decayed assignment counts `rho0` (length `K`)
and decayed weighted observation sums `rho` (`size×K`); the base class
stores `cluster_id`. All updates involve only finite arithmetic on finite
driver inputs, so entries are exact rationals. -/
structure KLSufficientStatistics (size K : ℕ) where
  cluster_id : Fin K
  rho0 : Fin K → ℚ
  rho : Fin size → Fin K → ℚ

/-- Source `KLSufficientStatistics.__init__(x, cluster_id, K, size)`
(distributions.py:183-189): `rho0 = np.zeros(K)`,
`rho = np.zeros((size, K))`, then `rho[:, cluster_id] = x`. -/
def KLSufficientStatistics.init {size K : ℕ} (x : Fin size → ℚ)
    (cluster_id : Fin K) : KLSufficientStatistics size K :=
  { cluster_id := cluster_id
    rho0 := fun _ => 0
    rho := fun i k => if k = cluster_id then x i else 0 }

/-- Source `KLSufficientStatistics.online_update(x, r, step)`
(distributions.py:191-195):
`self.rho0 = (1 - step) * self.rho0.dot(r)`;
`self.rho0[self.cluster_id] += step`;
`self.rho = (1 - step) * self.rho.dot(r)`;
`self.rho[:, self.cluster_id] += step * x`. -/
def KLSufficientStatistics.online_update {size K : ℕ}
    (ss : KLSufficientStatistics size K) (x : Fin size → ℚ)
    (r : Matrix (Fin K) (Fin K) ℚ) (step : ℚ) :
    KLSufficientStatistics size K :=
  let rho0 : Fin K → ℚ := fun k =>
    (1 - step) * (∑ l, ss.rho0 l * r l k) +
      (if k = ss.cluster_id then step else 0)
  let rho : Fin size → Fin K → ℚ := fun i k =>
    (1 - step) * (∑ l, ss.rho i l * r l k) +
      (if k = ss.cluster_id then step * x i else 0)
  { ss with rho0 := rho0, rho := rho }

/-- Source `KL.new_sufficient_statistics(x, cluster_id, K)`
(distributions.py:133-134): returns
`KLSufficientStatistics(x, cluster_id, K, self.mean.shape[0])`, so
`size = D`. -/
def KL.new_sufficient_statistics {D K : ℕ} (kl : KL D) (x : Fin D → ℚ)
    (cluster_id : Fin K) : KLSufficientStatistics D K :=
  KLSufficientStatistics.init x cluster_id

/-- Source `KL.online_max_likelihood(rho_obs, phi)`
(distributions.py:136-137):
`self.mean = rho_obs.rho.dot(phi) / rho_obs.rho0.dot(phi)` — an
entrywise float division whose denominator is the scalar
`rho0 · phi`. -/
def KL.online_max_likelihood {D K : ℕ}
    (rho_obs : KLSufficientStatistics D K) (phi : Fin K → ℚ) : KL D :=
  { mean := fun j =>
      ndiv (some (∑ k, rho_obs.rho j k * phi k))
        (some (∑ k, rho_obs.rho0 k * phi k)) }

/-- One triple of driver-supplied arguments for a single
`online_update` call. -/
structure UpdateArgs (size K : ℕ) where
  x : Fin size → ℚ
  r : Matrix (Fin K) (Fin K) ℚ
  step : ℚ

/-- The conditions §4.5 of the spec places on the arguments of a single
`online_update` call: non-negative observation, entrywise non-negative
mixing matrix, step in (0,1]. -/
def UpdateArgs.Valid {size K : ℕ} (u : UpdateArgs size K) : Prop :=
  (∀ i, 0 ≤ u.x i) ∧ (∀ l k, 0 ≤ u.r l k) ∧ 0 < u.step ∧ u.step ≤ 1

/-- A sequence of `online_update` calls, applied left to right. -/
def KLSufficientStatistics.run_updates {size K : ℕ}
    (ss : KLSufficientStatistics size K) (us : List (UpdateArgs size K)) :
    KLSufficientStatistics size K :=
  us.foldl (fun s u => s.online_update u.x u.r u.step) ss

/-- Entrywise non-negativity of the accumulator state (the §4.5
invariant). -/
def KLSufficientStatistics.Nonneg {size K : ℕ}
    (ss : KLSufficientStatistics size K) : Prop :=
  (∀ k, 0 ≤ ss.rho0 k) ∧ ∀ i k, 0 ≤ ss.rho i k

/-- Repeated application of `online_update` with the same observation
`x`, mixing matrix `r` and step. -/
def KLSufficientStatistics.iter_update {size K : ℕ} (x : Fin size → ℚ)
    (r : Matrix (Fin K) (Fin K) ℚ) (step : ℚ)
    (ss : KLSufficientStatistics size K) :
    ℕ → KLSufficientStatistics size K
  | 0 => ss
  | n + 1 => (ss.iter_update x r step n).online_update x r step

/-- The `SquareDistance` data-model invariant of §3 of the spec:
`sigma2 is None or sigma2 > 0` (stored as a finite positive float). -/
def SquareDistance.InvariantHolds {D : ℕ} (s : SquareDistance D) : Prop :=
  s.sigma2 = none ∨ ∃ v : ℚ, s.sigma2 = some (some v) ∧ 0 < v

/-! ### Claims -/

/-- C1: the spec states that `cov` exposes the isotropic matrix
`sigma2 · I` of size `D×D` for every dimension `D`; the source hard-codes
`np.eye(2)`, so a 3-dimensional `SquareDistance` still exposes a 2×2
matrix. This theorem evaluates the embedded `cov` at the failing input
(mean of dimension 3, `sigma2 = 4`): the result type and value are the
2×2 matrix `4 · I₂`, not the 3×3 matrix the spec requires. -/
theorem C1_cov_hardcoded_2x2 :
    SquareDistance.cov (D := 3) ⟨![some 1, some 2, some 3], some (some 4)⟩ =
      .ok fun i j => if i = j then some 4 else some 0 := by
  have h : SquareDistance.cov (D := 3)
      ⟨![some 1, some 2, some 3], some (some 4)⟩ =
      .ok fun i j => nmul (some 4) (some (if i = j then 1 else 0)) := rfl
  rw [h]
  congr 1
  funext i j
  by_cases hij : i = j <;> simp [nmul, hij]

/-- C6: constructing `KLSufficientStatistics` with observation `x` and
cluster `cluster_id` gives `rho[:, cluster_id] = x`, zero in every other
column of `rho`, and `rho0 = 0_K`. -/
theorem C6_init_round_trip {size K : ℕ} (x : Fin size → ℚ)
    (cluster_id : Fin K) :
    (∀ i, (KLSufficientStatistics.init x cluster_id).rho i cluster_id = x i) ∧
    (∀ i k, k ≠ cluster_id →
      (KLSufficientStatistics.init x cluster_id).rho i k = 0) ∧
    (∀ k, (KLSufficientStatistics.init x cluster_id).rho0 k = 0) := by
  refine ⟨fun i => by simp [KLSufficientStatistics.init],
    fun i k hk => by simp [KLSufficientStatistics.init, hk],
    fun k => rfl⟩

/-- Witness for C6 at `x = [3,4]`, `cluster_id = 2`, `K = 4`. -/
theorem C6_init_round_trip_witness :
    (KLSufficientStatistics.init ![(3:ℚ), 4] (2 : Fin 4)).rho 0 2 = 3 ∧
    (KLSufficientStatistics.init ![(3:ℚ), 4] (2 : Fin 4)).rho 0 0 = 0 ∧
    (KLSufficientStatistics.init ![(3:ℚ), 4] (2 : Fin 4)).rho0 1 = 0 :=
  ⟨(C6_init_round_trip ![(3:ℚ), 4] (2 : Fin 4)).1 0,
    (C6_init_round_trip ![(3:ℚ), 4] (2 : Fin 4)).2.1 0 0 (by decide),
    (C6_init_round_trip ![(3:ℚ), 4] (2 : Fin 4)).2.2 1⟩

/-- C9: on a freshly constructed accumulator (via
`new_sufficient_statistics`, which delegates to the constructor) the
denominator `rho0 · phi` of `online_max_likelihood` is exactly 0 for
every `phi`, and the resulting `mean` entries are all non-finite (NaN) —
a division by zero, not a valid probability vector. -/
theorem C9_fresh_stats_divide_by_zero {D K : ℕ} (kl : KL D)
    (x : Fin D → ℚ) (cluster_id : Fin K) (phi : Fin K → ℚ) :
    (∑ k, (kl.new_sufficient_statistics x cluster_id).rho0 k * phi k) = 0 ∧
    ∀ j, (KL.online_max_likelihood (kl.new_sufficient_statistics x cluster_id)
      phi).mean j = none := by
  constructor
  · simp [KL.new_sufficient_statistics, KLSufficientStatistics.init]
  · intro j
    simp [KL.online_max_likelihood, KL.new_sufficient_statistics,
      KLSufficientStatistics.init, ndiv]

/-- C10: `KL.pdf` never reads the `normalized` flag: for every kernel,
every `KL` state with strictly positive (finite) mean and every input,
the normalized and unnormalized calls return the same value
`exp(X · log(mean))`. -/
theorem C10_pdf_ignores_normalized {N D : ℕ} (κ : NumKernel) (kl : KL D)
    (X : Fin N → Fin D → ℚ)
    (hmean : ∀ j, ∃ q : ℚ, kl.mean j = some q ∧ 0 < q) :
    KL.pdf κ kl X true = KL.pdf κ kl X false ∧
    ∀ (normalized : Bool) i, KL.pdf κ kl X normalized i =
      κ.exp (nsum fun j => nmul (some (X i j)) (κ.log (kl.mean j))) :=
  ⟨rfl, fun _ _ => rfl⟩

/-- Witness for C10 with the dummy kernel, `mean = [1]`, `X = [[2]]`. -/
theorem C10_pdf_ignores_normalized_witness :
    KL.pdf dummyKernel ⟨![some 1]⟩ ![![(2:ℚ)]] true =
      KL.pdf dummyKernel ⟨![some 1]⟩ ![![(2:ℚ)]] false :=
  (C10_pdf_ignores_normalized dummyKernel ⟨![some 1]⟩ ![![(2:ℚ)]]
    (fun j => ⟨1, by fin_cases j <;> rfl, by norm_num⟩)).1

/-- C7: `SquareDistance.log_pdf` and `pdf` signal the precondition error
(the source's `assert self.sigma2 is not None`) exactly when `sigma2` is
unset, and return a value (`.ok`) exactly when it is set. -/
theorem C7_density_requires_sigma2 {N D : ℕ} (κ : NumKernel)
    (s : SquareDistance D) (X : Fin N → Fin D → ℚ) :
    ((∃ y, s.log_pdf κ X = .ok y) ↔ s.sigma2 ≠ none) ∧
    (∀ normalized, (∃ y, s.pdf κ X normalized = .ok y) ↔ s.sigma2 ≠ none) ∧
    (s.sigma2 = none →
      s.log_pdf κ X = .error "only for isotropic Gaussian" ∧
      ∀ normalized, s.pdf κ X normalized =
        .error "only for isotropic Gaussian") := by
  refine ⟨?_, ?_, ?_⟩
  · cases h : s.sigma2 <;> simp [SquareDistance.log_pdf, h]
  · intro b
    cases h : s.sigma2 <;> cases b <;> simp [SquareDistance.pdf, h]
  · intro h
    exact ⟨by simp [SquareDistance.log_pdf, h],
      fun b => by cases b <;> simp [SquareDistance.pdf, h]⟩

/-- Witness for C7: with `sigma2` unset the error is raised; with
`sigma2 = 1` a value is returned. -/
theorem C7_density_requires_sigma2_witness :
    SquareDistance.log_pdf dummyKernel
      (⟨![some 0], none⟩ : SquareDistance 1) ![![(1:ℚ)]] =
      .error "only for isotropic Gaussian" ∧
    ∃ y, SquareDistance.log_pdf dummyKernel
      (⟨![some 0], some (some 1)⟩ : SquareDistance 1) ![![(1:ℚ)]] = .ok y :=
  ⟨((C7_density_requires_sigma2 dummyKernel
      (⟨![some 0], none⟩ : SquareDistance 1) ![![(1:ℚ)]]).2.2 rfl).1,
    (C7_density_requires_sigma2 dummyKernel
      (⟨![some 0], some (some 1)⟩ : SquareDistance 1) ![![(1:ℚ)]]).1.mpr
      (by simp)⟩

/-- C2 counterexample: the claim says `max_likelihood` with all-zero
weights fails fast with an error surfaced to the caller. At `X = [[1]]`,
`weights = [0]` both `Gaussian.max_likelihood` and
`SquareDistance.max_likelihood` return `.ok` — numpy's division by a zero
weight sum produces NaN with a warning, no exception — so the parameters
become non-finite instead of an error being raised. -/
theorem C2_zero_weights_counterexample :
    (Gaussian.max_likelihood ![![(1:ℚ)]] ![0]).map (fun g => g.mean 0) =
      .ok none ∧
    (SquareDistance.max_likelihood ⟨![some 0], some (some 1)⟩ ![![(1:ℚ)]]
      (.float ![0])).map (fun s => s.sigma2) = .ok (some none) := by
  constructor
  · have hsum : (∑ i, (![(0:ℚ)]) i) = 0 := by simp
    simp only [Gaussian.max_likelihood, Except.map]
    rw [hsum, ndiv_zero_right]
  · have hsum : (∑ i, Weights.toQ (.float ![(0:ℚ)]) i) = 0 := by
      simp [Weights.toQ]
    simp only [SquareDistance.max_likelihood, Except.map]
    rw [hsum, ndiv_zero_right]

/-- C2 (amended): `max_likelihood` with an all-zero weight vector does
not fail fast — it returns normally (`.ok`), with the division by the
zero weight sum propagating NaN into every mean entry; no finite default
is substituted. Holds for `Gaussian` and for `SquareDistance`. -/
theorem C2_zero_weights_nan_no_error {N D : ℕ} (X : Fin N → Fin D → ℚ)
    (w : Fin N → ℚ) (hw : ∀ i, w i = 0) :
    (∃ g, Gaussian.max_likelihood X w = .ok g ∧ ∀ j, g.mean j = none) ∧
    ∀ s : SquareDistance D, ∃ s2,
      s.max_likelihood X (.float w) = .ok s2 ∧ ∀ j, s2.mean j = none := by
  have hsum : (∑ i, w i) = 0 := Finset.sum_eq_zero fun i _ => hw i
  constructor
  · refine ⟨_, rfl, fun j => ?_⟩
    show ndiv (some (∑ i, w i * X i j)) (some (∑ i, w i)) = none
    rw [hsum]
    exact ndiv_zero_right _
  · intro s
    refine ⟨_, rfl, fun j => ?_⟩
    show ndiv (some (∑ i, w i * X i j)) (some (∑ i, w i)) = none
    rw [hsum]
    exact ndiv_zero_right _

/-- Witness for the amended C2 at `X = [[1]]`, `w = [0]`. -/
theorem C2_zero_weights_nan_no_error_witness :
    ∃ g, Gaussian.max_likelihood ![![(1:ℚ)]] ![0] = .ok g ∧
      ∀ j, g.mean j = none :=
  (C2_zero_weights_nan_no_error ![![(1:ℚ)]] ![0]
    (fun i => by fin_cases i; rfl)).1

/-- C5: `Gaussian.max_likelihood` with all-ones weights sets `mean` to
the unweighted sample mean and `cov` to the biased (divide-by-`N`)
sample covariance of `X`, exactly. -/
theorem C5_ones_weights_sample_moments {N D : ℕ} (hN : 0 < N)
    (X : Fin N → Fin D → ℚ) :
    Gaussian.max_likelihood X (fun _ => 1) =
      .ok { mean := fun j => some ((∑ i, X i j) / N),
            cov := fun j k => some ((∑ i,
              (X i j - (∑ m, X m j) / N) *
                (X i k - (∑ m, X m k) / N)) / N) } := by
  have hNQ : ((N : ℚ)) ≠ 0 := Nat.cast_ne_zero.mpr hN.ne'
  have hsum : (∑ _i : Fin N, (1:ℚ)) = (N:ℚ) := by simp
  have hm : ∀ j : Fin D,
      ndiv (some (∑ i, (1:ℚ) * X i j)) (some (∑ _i : Fin N, (1:ℚ))) =
        some ((∑ i, X i j) / (N:ℚ)) := fun j => by
    rw [hsum, ndiv_some hNQ]
    simp [one_mul]
  have h0 : Gaussian.max_likelihood X (fun _ => 1) = .ok
      { mean := fun j =>
          ndiv (some (∑ i, (1:ℚ) * X i j)) (some (∑ _i : Fin N, (1:ℚ)))
        cov := fun j k =>
          ndiv (nsum fun i =>
              nmul (nsub (some (X i j))
                  (ndiv (some (∑ m, (1:ℚ) * X m j))
                    (some (∑ _m : Fin N, (1:ℚ)))))
                (nmul (some (1:ℚ))
                  (nsub (some (X i k))
                    (ndiv (some (∑ m, (1:ℚ) * X m k))
                      (some (∑ _m : Fin N, (1:ℚ)))))))
            (some (∑ _i : Fin N, (1:ℚ))) } := rfl
  rw [h0]
  simp only [Except.ok.injEq, Gaussian.mk.injEq]
  constructor
  · funext j
    exact hm j
  · funext j k
    rw [hm j, hm k]
    rw [nsum_eq_some (g := fun i =>
        (X i j - (∑ m, X m j) / (N:ℚ)) * (1 * (X i k - (∑ m, X m k) / (N:ℚ))))
      (fun i => by rw [nsub_some, nsub_some, nmul_some, nmul_some])]
    rw [hsum, ndiv_some hNQ]
    congr 1
    refine congrArg (· / (N:ℚ)) ?_
    exact Finset.sum_congr rfl fun i _ => by rw [one_mul]

/-- Witness for C5 at `X = [[1],[3]]` (`N = 2`, `D = 1`): sample mean 2,
biased sample variance 1. -/
theorem C5_ones_weights_sample_moments_witness :
    Gaussian.max_likelihood ![![(1:ℚ)], ![3]] (fun _ => 1) =
      .ok { mean := fun j => some ((∑ i, ![![(1:ℚ)], ![3]] i j) / 2),
            cov := fun j k => some ((∑ i,
              (![![(1:ℚ)], ![3]] i j - (∑ m, ![![(1:ℚ)], ![3]] m j) / 2) *
                (![![(1:ℚ)], ![3]] i k -
                  (∑ m, ![![(1:ℚ)], ![3]] m k) / 2)) / 2) } :=
  C5_ones_weights_sample_moments (by norm_num) ![![(1:ℚ)], ![3]]

/-- Closed form of `SquareDistance.max_likelihood` on a float weight
vector with nonzero weight sum and `sigma2` set: the new mean is the
weighted average and the new `sigma2` is
`0.5 · Σ w_i·dist_i² / Σ w_i` (all finite). -/
theorem sd_max_likelihood_float_eval {N D : ℕ} (mean0 : Fin D → NpF)
    (v : NpF) (X : Fin N → Fin D → ℚ) (wq : Fin N → ℚ)
    (hden : (∑ i, wq i) ≠ 0) :
    SquareDistance.max_likelihood ⟨mean0, some v⟩ X (.float wq) = .ok
      { mean := fun j => some ((∑ i, wq i * X i j) / (∑ i, wq i)),
        sigma2 := some (some ((1/2 * ∑ i,
          (∑ j, (X i j - (∑ m, wq m * X m j) / (∑ m, wq m)) *
            (X i j - (∑ m, wq m * X m j) / (∑ m, wq m))) * wq i) /
          (∑ i, wq i))) } := by
  have hm : ∀ j : Fin D,
      ndiv (some (∑ i, wq i * X i j)) (some (∑ i, wq i)) =
        some ((∑ i, wq i * X i j) / (∑ i, wq i)) := fun j => ndiv_some hden
  have h0 : SquareDistance.max_likelihood ⟨mean0, some v⟩ X (.float wq) = .ok
      { mean := fun j => ndiv (some (∑ i, wq i * X i j)) (some (∑ i, wq i)),
        sigma2 := some (ndiv (nmul (some (1/2 : ℚ))
          (nsum fun i => nmul (nsum fun j =>
              nmul (nsub (some (X i j))
                  (ndiv (some (∑ m, wq m * X m j)) (some (∑ m, wq m))))
                (nsub (some (X i j))
                  (ndiv (some (∑ m, wq m * X m j)) (some (∑ m, wq m)))))
            (some (wq i))))
          (some (∑ i, wq i))) } := rfl
  rw [h0]
  simp only [Except.ok.injEq, SquareDistance.mk.injEq]
  constructor
  · funext j
    exact hm j
  · have hdist : ∀ i : Fin N,
        (nsum fun j =>
          nmul (nsub (some (X i j))
              (ndiv (some (∑ m, wq m * X m j)) (some (∑ m, wq m))))
            (nsub (some (X i j))
              (ndiv (some (∑ m, wq m * X m j)) (some (∑ m, wq m))))) =
        some (∑ j, (X i j - (∑ m, wq m * X m j) / (∑ m, wq m)) *
          (X i j - (∑ m, wq m * X m j) / (∑ m, wq m))) := fun i =>
      nsum_eq_some fun j => by rw [hm j, nsub_some, nmul_some]
    rw [nsum_eq_some fun i => by rw [hdist i, nmul_some]]
    rw [nmul_some, ndiv_some hden]

/-- Closed form of `SquareDistance.max_likelihood` on a boolean mask with
a nonempty selection and `sigma2` set: the new mean is the average of
the selected rows and the new `sigma2` is
`0.5 · Σ w_i·dist_i² / Σ w_i` with `True` counting as 1 (all finite). -/
theorem sd_max_likelihood_bool_eval {N D : ℕ} (mean0 : Fin D → NpF)
    (v : NpF) (X : Fin N → Fin D → ℚ) (mask : Fin N → Bool)
    (hden : (∑ i, (if mask i then (1:ℚ) else 0)) ≠ 0) :
    SquareDistance.max_likelihood ⟨mean0, some v⟩ X (.bool mask) = .ok
      { mean := fun j => some ((∑ i, if mask i then X i j else 0) /
          (∑ i, if mask i then (1:ℚ) else 0)),
        sigma2 := some (some ((1/2 * ∑ i,
          (∑ j, (X i j - (∑ m, if mask m then X m j else 0) /
              (∑ m, if mask m then (1:ℚ) else 0)) *
            (X i j - (∑ m, if mask m then X m j else 0) /
              (∑ m, if mask m then (1:ℚ) else 0))) *
            (if mask i then (1:ℚ) else 0)) /
          (∑ i, if mask i then (1:ℚ) else 0))) } := by
  have hm : ∀ j : Fin D,
      ndiv (some (∑ i, if mask i then X i j else 0))
        (some (∑ i, if mask i then (1:ℚ) else 0)) =
        some ((∑ i, if mask i then X i j else 0) /
          (∑ i, if mask i then (1:ℚ) else 0)) := fun j => ndiv_some hden
  have h0 : SquareDistance.max_likelihood ⟨mean0, some v⟩ X (.bool mask) = .ok
      { mean := fun j => ndiv (some (∑ i, if mask i then X i j else 0))
          (some (∑ i, if mask i then (1:ℚ) else 0)),
        sigma2 := some (ndiv (nmul (some (1/2 : ℚ))
          (nsum fun i => nmul (nsum fun j =>
              nmul (nsub (some (X i j))
                  (ndiv (some (∑ m, if mask m then X m j else 0))
                    (some (∑ m, if mask m then (1:ℚ) else 0))))
                (nsub (some (X i j))
                  (ndiv (some (∑ m, if mask m then X m j else 0))
                    (some (∑ m, if mask m then (1:ℚ) else 0)))))
            (some (if mask i then (1:ℚ) else 0))))
          (some (∑ i, if mask i then (1:ℚ) else 0))) } := rfl
  rw [h0]
  simp only [Except.ok.injEq, SquareDistance.mk.injEq]
  constructor
  · funext j
    exact hm j
  · have hdist : ∀ i : Fin N,
        (nsum fun j =>
          nmul (nsub (some (X i j))
              (ndiv (some (∑ m, if mask m then X m j else 0))
                (some (∑ m, if mask m then (1:ℚ) else 0))))
            (nsub (some (X i j))
              (ndiv (some (∑ m, if mask m then X m j else 0))
                (some (∑ m, if mask m then (1:ℚ) else 0))))) =
        some (∑ j, (X i j - (∑ m, if mask m then X m j else 0) /
            (∑ m, if mask m then (1:ℚ) else 0)) *
          (X i j - (∑ m, if mask m then X m j else 0) /
            (∑ m, if mask m then (1:ℚ) else 0))) := fun i =>
      nsum_eq_some fun j => by rw [hm j, nsub_some, nmul_some]
    rw [nsum_eq_some fun i => by rw [hdist i, nmul_some]]
    rw [nmul_some, ndiv_some hden]

/-- C3 counterexample: the claim says the re-estimated `sigma2` is
strictly positive. With `X = [[5]]`, `weights = [1]` and the single
observation landing exactly on the new mean, the re-estimated `sigma2`
is exactly 0, so the instance no longer satisfies
`sigma2 is None or sigma2 > 0`. -/
theorem C3_sigma2_zero_counterexample :
    (SquareDistance.max_likelihood ⟨![some 0], some (some 1)⟩ ![![(5:ℚ)]]
      (.float ![1])).map (fun s2 => s2.sigma2) = .ok (some (some 0)) ∧
    ¬ SquareDistance.InvariantHolds (D := 1) ⟨![some 5], some (some 0)⟩ := by
  constructor
  · rw [sd_max_likelihood_float_eval _ _ _ _ (by simp)]
    simp only [Except.map]
    norm_num [Fin.sum_univ_one]
  · simp [SquareDistance.InvariantHolds]

/-- C3 (amended): under non-negative, not-all-zero weights,
`max_likelihood` keeps `sigma2 = None` when it was `None`, and when
`sigma2` was set the re-estimated value `0.5 · Σ w_i·dist_i² / Σ w_i` is
finite and non-negative (it is strictly positive only when some
positively weighted observation differs from the new mean; it is 0 when
all weighted observations coincide with it). -/
theorem C3_sigma2_invariant_weakened {N D : ℕ} (s : SquareDistance D)
    (hs : s.InvariantHolds) (X : Fin N → Fin D → ℚ) (w : Weights N)
    (hw0 : ∀ i, 0 ≤ w.toQ i) (hw1 : ∃ i, w.toQ i ≠ 0) :
    ∃ s2, s.max_likelihood X w = .ok s2 ∧
      (s.sigma2 = none → s2.sigma2 = none) ∧
      (s.sigma2 ≠ none → ∃ q : ℚ, s2.sigma2 = some (some q) ∧ 0 ≤ q) := by
  obtain ⟨mean0, sigma0⟩ := s
  have hden : 0 < ∑ i, w.toQ i := by
    obtain ⟨i0, hi0⟩ := hw1
    exact Finset.sum_pos' (fun i _ => hw0 i)
      ⟨i0, Finset.mem_univ i0, lt_of_le_of_ne (hw0 i0) (Ne.symm hi0)⟩
  cases sigma0 with
  | none => exact ⟨_, rfl, fun _ => rfl, fun h => absurd rfl h⟩
  | some v =>
    cases w with
    | float wq =>
      have hdenne : (∑ i, wq i) ≠ 0 := ne_of_gt hden
      refine ⟨_, sd_max_likelihood_float_eval mean0 v X wq hdenne,
        fun h => absurd h (by simp), fun _ => ⟨_, rfl, ?_⟩⟩
      apply div_nonneg _ hden.le
      refine mul_nonneg (by norm_num) (Finset.sum_nonneg fun i _ => ?_)
      refine mul_nonneg (Finset.sum_nonneg fun j _ => mul_self_nonneg _)
        (hw0 i)
    | bool mask =>
      have hdenne : (∑ i, (if mask i then (1:ℚ) else 0)) ≠ 0 := ne_of_gt hden
      refine ⟨_, sd_max_likelihood_bool_eval mean0 v X mask hdenne,
        fun h => absurd h (by simp), fun _ => ⟨_, rfl, ?_⟩⟩
      apply div_nonneg _ hden.le
      refine mul_nonneg (by norm_num) (Finset.sum_nonneg fun i _ => ?_)
      refine mul_nonneg (Finset.sum_nonneg fun j _ => mul_self_nonneg _)
        (hw0 i)

/-- Witness for the amended C3 at a concrete isotropic instance,
`X = [[5]]`, `weights = [1]`. -/
theorem C3_sigma2_invariant_weakened_witness :
    ∃ s2, SquareDistance.max_likelihood
        (⟨![some 0], some (some 1)⟩ : SquareDistance 1) ![![(5:ℚ)]]
        (.float ![1]) = .ok s2 ∧
      ((⟨![some 0], some (some 1)⟩ : SquareDistance 1).sigma2 = none →
        s2.sigma2 = none) ∧
      ((⟨![some 0], some (some 1)⟩ : SquareDistance 1).sigma2 ≠ none →
        ∃ q : ℚ, s2.sigma2 = some (some q) ∧ 0 ≤ q) :=
  C3_sigma2_invariant_weakened _ (Or.inr ⟨1, rfl, by norm_num⟩) _ _
    (fun i => by fin_cases i <;> simp [Weights.toQ])
    ⟨0, by simp [Weights.toQ]⟩

/-- A single `online_update` with non-negative observation, non-negative
mixing matrix and step in (0,1] preserves entrywise non-negativity. -/
theorem online_update_nonneg {size K : ℕ}
    {ss : KLSufficientStatistics size K} (h : ss.Nonneg)
    {x : Fin size → ℚ} {r : Matrix (Fin K) (Fin K) ℚ} {step : ℚ}
    (hx : ∀ i, 0 ≤ x i) (hr : ∀ l k, 0 ≤ r l k)
    (hstep0 : 0 < step) (hstep1 : step ≤ 1) :
    (ss.online_update x r step).Nonneg := by
  obtain ⟨h0, h1⟩ := h
  constructor
  · intro k
    show 0 ≤ (1 - step) * (∑ l, ss.rho0 l * r l k) +
      (if k = ss.cluster_id then step else 0)
    have t1 : 0 ≤ (1 - step) * (∑ l, ss.rho0 l * r l k) :=
      mul_nonneg (by linarith)
        (Finset.sum_nonneg fun l _ => mul_nonneg (h0 l) (hr l k))
    have t2 : 0 ≤ (if k = ss.cluster_id then step else 0) := by
      split
      · exact hstep0.le
      · exact le_refl 0
    linarith
  · intro i k
    show 0 ≤ (1 - step) * (∑ l, ss.rho i l * r l k) +
      (if k = ss.cluster_id then step * x i else 0)
    have t1 : 0 ≤ (1 - step) * (∑ l, ss.rho i l * r l k) :=
      mul_nonneg (by linarith)
        (Finset.sum_nonneg fun l _ => mul_nonneg (h1 i l) (hr l k))
    have t2 : 0 ≤ (if k = ss.cluster_id then step * x i else 0) := by
      split
      · exact mul_nonneg hstep0.le (hx i)
      · exact le_refl 0
    linarith

/-- Any sequence of valid `online_update` calls preserves entrywise
non-negativity. -/
theorem run_updates_nonneg {size K : ℕ}
    {ss : KLSufficientStatistics size K} (h : ss.Nonneg)
    {us : List (UpdateArgs size K)} (hus : ∀ u ∈ us, u.Valid) :
    (ss.run_updates us).Nonneg := by
  induction us generalizing ss with
  | nil => exact h
  | cons u us ih =>
    obtain ⟨hx, hr, h0s, h1s⟩ := hus u (List.mem_cons_self u us)
    exact ih (online_update_nonneg h hx hr h0s h1s)
      fun v hv => hus v (List.mem_cons_of_mem u hv)

/-- C4: an entrywise non-negative accumulator stays entrywise
non-negative under `online_update` with non-negative `x`, non-negative
`r` and `step ∈ (0,1]` — after one call and hence after any sequence of
such calls. -/
theorem C4_online_update_preserves_nonneg {size K : ℕ}
    (ss : KLSufficientStatistics size K) (h : ss.Nonneg) :
    (∀ (x : Fin size → ℚ) (r : Matrix (Fin K) (Fin K) ℚ) (step : ℚ),
      (∀ i, 0 ≤ x i) → (∀ l k, 0 ≤ r l k) → 0 < step → step ≤ 1 →
      (ss.online_update x r step).Nonneg) ∧
    ∀ us : List (UpdateArgs size K), (∀ u ∈ us, u.Valid) →
      (ss.run_updates us).Nonneg :=
  ⟨fun _ _ _ hx hr h0s h1s => online_update_nonneg h hx hr h0s h1s,
    fun _ hus => run_updates_nonneg h hus⟩

/-- Witness for C4: a freshly seeded accumulator updated once with the
identity mixing matrix and step 1/2 stays non-negative. -/
theorem C4_online_update_preserves_nonneg_witness :
    ((KLSufficientStatistics.init ![(1:ℚ)] (0 : Fin 2)).run_updates
      [⟨![1], 1, 1/2⟩]).Nonneg :=
  (C4_online_update_preserves_nonneg
      (KLSufficientStatistics.init ![(1:ℚ)] (0 : Fin 2))
      ⟨fun _ => le_refl 0, fun i k => by
        fin_cases i <;> fin_cases k <;>
          norm_num [KLSufficientStatistics.init]⟩).2
    [⟨![1], 1, 1/2⟩]
    (fun u hu => by
      rw [List.mem_singleton] at hu
      subst hu
      exact ⟨fun i => by fin_cases i <;> norm_num,
        fun l k => by
          fin_cases l <;> fin_cases k <;> norm_num [Matrix.one_apply],
        by norm_num, by norm_num⟩)

/-- Iterating `online_update` never changes `cluster_id`. -/
theorem iter_update_cluster_id {size K : ℕ} (x : Fin size → ℚ)
    (r : Matrix (Fin K) (Fin K) ℚ) (step : ℚ)
    (ss : KLSufficientStatistics size K) (n : ℕ) :
    (KLSufficientStatistics.iter_update x r step ss n).cluster_id =
      ss.cluster_id := by
  induction n with
  | zero => rfl
  | succ n ih => exact ih

/-- Multiplying a vector by the identity mixing matrix on the right is
the identity. -/
theorem dot_one {K : ℕ} (f : Fin K → ℚ) (k : Fin K) :
    (∑ l, f l * (1 : Matrix (Fin K) (Fin K) ℚ) l k) = f k := by
  simp [Matrix.one_apply, mul_ite]

/-- Closed form of `rho0` after `n` identity-matrix updates with constant
step: the start value decays geometrically and the `cluster_id` entry
accumulates toward 1. -/
theorem iter_update_rho0_closed_form {size K : ℕ} (x : Fin size → ℚ)
    (s : ℚ) (ss : KLSufficientStatistics size K) (n : ℕ) (k : Fin K) :
    (KLSufficientStatistics.iter_update x 1 s ss n).rho0 k =
      (1 - s) ^ n * ss.rho0 k +
        (if k = ss.cluster_id then 1 - (1 - s) ^ n else 0) := by
  induction n with
  | zero => simp [KLSufficientStatistics.iter_update]
  | succ n ih =>
    show (1 - s) * (∑ l, (KLSufficientStatistics.iter_update x 1 s ss n).rho0 l *
        (1 : Matrix (Fin K) (Fin K) ℚ) l k) +
      (if k = (KLSufficientStatistics.iter_update x 1 s ss n).cluster_id
        then s else 0) = _
    rw [dot_one, iter_update_cluster_id, ih]
    by_cases hk : k = ss.cluster_id <;> simp [hk] <;> ring

/-- C8: with `r = I` and constant step `s ∈ (0,1)`, repeated
`online_update` drives `rho0[cluster_id]` to 1 and every other `rho0`
entry to 0 (geometric decay toward the fixed point), from any starting
state. -/
theorem C8_iterated_identity_updates_converge {size K : ℕ}
    (ss : KLSufficientStatistics size K) (x : Fin size → ℚ)
    (hx : ∀ i, 0 ≤ x i) (s : ℚ) (hs0 : 0 < s) (hs1 : s < 1) :
    Filter.Tendsto
      (fun n => (KLSufficientStatistics.iter_update x 1 s ss n).rho0
        ss.cluster_id)
      Filter.atTop (nhds 1) ∧
    ∀ k, k ≠ ss.cluster_id →
      Filter.Tendsto
        (fun n => (KLSufficientStatistics.iter_update x 1 s ss n).rho0 k)
        Filter.atTop (nhds 0) := by
  have hpow : Filter.Tendsto (fun n : ℕ => (1 - s) ^ n) Filter.atTop
      (nhds 0) :=
    tendsto_pow_atTop_nhds_zero_of_lt_one (by linarith) (by linarith)
  constructor
  · have hcong : (fun n =>
        (KLSufficientStatistics.iter_update x 1 s ss n).rho0 ss.cluster_id) =
        fun n => (1 - s) ^ n * ss.rho0 ss.cluster_id + (1 - (1 - s) ^ n) :=
      funext fun n => by rw [iter_update_rho0_closed_form]; simp
    rw [hcong]
    have h : Filter.Tendsto
        (fun n : ℕ => (1 - s) ^ n * ss.rho0 ss.cluster_id +
          (1 - (1 - s) ^ n))
        Filter.atTop (nhds (0 * ss.rho0 ss.cluster_id + (1 - 0))) :=
      (hpow.mul_const (ss.rho0 ss.cluster_id)).add
        (tendsto_const_nhds.sub hpow)
    simpa using h
  · intro k hk
    have hcong : (fun n =>
        (KLSufficientStatistics.iter_update x 1 s ss n).rho0 k) =
        fun n => (1 - s) ^ n * ss.rho0 k :=
      funext fun n => by rw [iter_update_rho0_closed_form]; simp [hk]
    rw [hcong]
    simpa using hpow.mul_const (ss.rho0 k)

/-- Witness for C8: the seeded accumulator of `C4`'s witness with step
1/2 converges. -/
theorem C8_iterated_identity_updates_converge_witness :
    Filter.Tendsto
      (fun n => (KLSufficientStatistics.iter_update ![(1:ℚ)] 1 (1/2)
        (KLSufficientStatistics.init ![(1:ℚ)] (0 : Fin 2)) n).rho0
        (KLSufficientStatistics.init ![(1:ℚ)] (0 : Fin 2)).cluster_id)
      Filter.atTop (nhds 1) :=
  (C8_iterated_identity_updates_converge
    (KLSufficientStatistics.init ![(1:ℚ)] (0 : Fin 2)) ![1]
    (fun i => by fin_cases i <;> norm_num) (1/2)
    (by norm_num) (by norm_num)).1

end OnlineHMM
